import Mathlib

/-!
Verification development for mysqlclusterbackup.py (ckode/mysqlclusterbackup).

The Python script is shallowly embedded: filesystem reads become an explicit
`DirAccess` value (the listing of the relevant directory), process termination
via sys.exit becomes the `Res.exited` outcome, an uncaught Python exception
becomes `Res.raised`, and the decimal formatting/parsing done by f-strings,
int() and the regular expression `incr(\d+)$` is modelled over `List Char`.
Line numbers in comments refer to src/mysqlclusterbackup.py.
-/

/-- The character for a single decimal digit, as produced by Python decimal
formatting (f-strings, str(int)). -/
def decChar (n : Nat) : Char :=
  if n = 0 then '0' else if n = 1 then '1' else if n = 2 then '2' else if n = 3 then '3'
  else if n = 4 then '4' else if n = 5 then '5' else if n = 6 then '6' else if n = 7 then '7'
  else if n = 8 then '8' else '9'

/-- Fuel-driven decimal rendering of a natural number (least significant digit
last), used to model Python str(int). The fuel is structural so that the
definition reduces in the kernel; `natDigits` supplies adequate fuel. -/
def natDigitsAux (fuel n : Nat) : List Char :=
  match fuel with
  | 0 => []
  | fuel + 1 =>
    if n < 10 then [ decChar n ]
    else natDigitsAux fuel (n / 10) ++ [ decChar (n % 10) ]

/-- Decimal digit string of a natural number, as Python str(int) renders it:
no sign, no leading zeros (and "0" for zero). -/
def natDigits (n : Nat) : List Char := natDigitsAux (n + 1) n

/-- Python str(int) / f-string rendering of a natural number. -/
def natToStr (n : Nat) : String := ⟨ natDigits n ⟩

/-- Python int() on a string of decimal digit characters. -/
def parseDigits (l : List Char) : Nat :=
  l.foldl (fun a c => a * 10 + (c.toNat - 48)) 0

/-- Longest prefix of decimal digits and the remainder, modelling how the
anchored strptime / re patterns consume maximal digit runs between literal
separators. -/
def takeDigits : List Char → List Char × List Char
  | [] => ([], [])
  | c :: cs =>
    if c.isDigit then
      let r := takeDigits cs
      (c :: r.1, r.2)
    else ([], c :: cs)

/-- Gregorian leap year test, as implemented by Python datetime. -/
def isLeap (y : Nat) : Bool := (y % 4 == 0 && y % 100 != 0) || y % 400 == 0

/-- Number of days in a month, as validated by the Python datetime constructor. -/
def daysInMonth (y m : Nat) : Nat :=
  if m = 2 then (if isLeap y then 29 else 28)
  else if m = 4 ∨ m = 6 ∨ m = 9 ∨ m = 11 then 30 else 31

/-- A calendar date as carried by Python datetime objects in the script. -/
structure Date where
  year : Nat
  month : Nat
  day : Nat
deriving DecidableEq

/-- A date Python datetime can represent: MINYEAR 1 to MAXYEAR 9999, with a
calendar-valid month and day. -/
def validDate (d : Date) : Prop :=
  1 ≤ d.year ∧ d.year ≤ 9999 ∧ 1 ≤ d.month ∧ d.month ≤ 12 ∧
    1 ≤ d.day ∧ d.day ≤ daysInMonth d.year d.month

instance validDate.dec (d : Date) : Decidable (validDate d) := by
  unfold validDate; exact inferInstance

/-- datetime.strptime(name, "%Y-%m-%d") as used at lines 145 and 164:
exactly four digits for %Y, one or two digits for %m and %d (zero padding
optional), hyphen separators, full match, then calendar validation by the
datetime constructor (year at least 1, day within the month). -/
def parse_date_name (s : String) : Option Date :=
  match takeDigits s.data with
  | (ys, '-' :: r2) =>
    match takeDigits r2 with
    | (ms, '-' :: r4) =>
      match takeDigits r4 with
      | (ds, []) =>
        if ys.length = 4 ∧ 1 ≤ ms.length ∧ ms.length ≤ 2 ∧ 1 ≤ ds.length ∧ ds.length ≤ 2 then
          let y := parseDigits ys
          let m := parseDigits ms
          let d := parseDigits ds
          if 1 ≤ y ∧ 1 ≤ m ∧ m ≤ 12 ∧ 1 ≤ d ∧ d ≤ daysInMonth y m then
            some ⟨y, m, d⟩
          else none
        else none
      | _ => none
    | _ => none
  | _ => none

/-- Zero-padded two-digit field, as strftime %m and %d produce. -/
def pad2 (n : Nat) : List Char := if n < 10 then '0' :: natDigits n else natDigits n

/-- Zero-padded four-digit field, as strftime %Y produces for datetime years. -/
def pad4 (n : Nat) : List Char :=
  if n < 10 then '0' :: '0' :: '0' :: natDigits n
  else if n < 100 then '0' :: '0' :: natDigits n
  else if n < 1000 then '0' :: natDigits n
  else natDigits n

/-- strftime('%Y-%m-%d') as used at line 315 to name a backup directory. -/
def format_date_name (d : Date) : String :=
  ⟨ pad4 d.year ++ ('-' :: (pad2 d.month ++ ('-' :: pad2 d.day))) ⟩

/-- The literal "incr" prefix of incremental directory names. -/
def incrStr : String := "incr"

/-- The regular expression match `incr(\d+)$` with int() on the captured
group, as used at lines 215 and 257: the literal prefix "incr" followed by
one or more decimal digits (leading zeros permitted by the pattern). -/
def parse_incr_name (s : String) : Option Nat :=
  match s.data with
  | 'i' :: 'n' :: 'c' :: 'r' :: rest =>
    if rest.isEmpty then none
    else if rest.all Char.isDigit then some (parseDigits rest) else none
  | _ => none

/-- The f-string `incr` followed by the sequence number, as built at
lines 268 and 272. -/
def format_incr_name (n : Nat) : String := incrStr ++ natToStr n

/-- What the script can observe about one directory on the filesystem:
it may not exist, it may exist but raise PermissionError on os.listdir, or
it can be listed, yielding entry names together with their os.path.isdir
status. -/
inductive DirAccess where
  | absent
  | unreadable
  | readable (entries : List (String × Bool))
deriving DecidableEq

/-- Outcome of running a piece of the script: a normal return, process
termination through sys.exit(code), or an uncaught Python exception. -/
inductive Res (α : Type) where
  | ok (val : α)
  | exited (code : Nat)
  | raised
deriving DecidableEq

/-- os.path.join for the absolute paths the script builds. -/
def slashStr : String := "/"

/-- os.path.join(a, b). -/
def joinPath (a b : String) : String := a ++ slashStr ++ b

/-- Python str.endswith: the second string is a suffix of the first. -/
def pyEndsWith (s t : String) : Bool :=
  decide (List.drop (s.data.length - t.data.length) s.data = t.data)

/-- Python f-string rendering of an optional string, where None prints as
the text "None". -/
def noneStr : String := "None"

/-- f-string interpolation of a value that may be Python None. -/
def pyStr : Option String → String
  | none => noneStr
  | some s => s

/-- The literal "incr1" used at line 268. -/
def incr1Str : String := "incr1"

/-- The loop at lines 261-265: keep the directory names matching
`incr(\d+)$` paired with their captured sequence numbers. -/
def incrDirPairs (entries : List (String × Bool)) : List (String × Nat) :=
  ((entries.filter (fun e => e.2)).map (fun e => e.1)).filterMap
    (fun nm => (parse_incr_name nm).map (fun k => (nm, k)))

/-- `max(incr_dirs, key=lambda x: x[1])[1]` at line 271: the largest second
component. The list is nonempty at the call site, so the 0 base of the fold
is inert. -/
def pyMaxSnd (pairs : List (String × Nat)) : Nat :=
  (pairs.map (fun p => p.2)).foldl Nat.max 0

/-- find_next_incr_directory (lines 233-284): given the backup directory for
a day, compute the path of the next incremental directory. A falsy or
nonexistent path returns None (after logging); a PermissionError while
scanning is caught, a message is printed, and None is returned; otherwise the
result is the path for the highest existing sequence number plus one, or
"incr1" when no incremental directory exists. -/
def find_next_incr_directory (backup_path : String) (d : DirAccess) : Res (Option String) :=
  if backup_path.data = [] then Res.ok none
  else
    match d with
    | DirAccess.absent => Res.ok none
    | DirAccess.unreadable => Res.ok none
    | DirAccess.readable entries =>
      match incrDirPairs entries with
      | [] => Res.ok (some (joinPath backup_path incr1Str))
      | p :: ps =>
        Res.ok (some (joinPath backup_path
          (incrStr ++ natToStr (pyMaxSnd (p :: ps) + 1))))

/-- The loop at lines 213-219 of find_incrementals: (number, name) pairs for
subdirectories matching `incr(\d+)$`. -/
def incrNumPairs (entries : List (String × Bool)) : List (Nat × String) :=
  ((entries.filter (fun e => e.2)).map (fun e => e.1)).filterMap
    (fun nm => (parse_incr_name nm).map (fun num => (num, nm)))

/-- The response dictionary of find_incrementals. -/
structure FindIncrResp where
  base_backup : String
  incrementals : List String
deriving DecidableEq

/-- find_incrementals (lines 178-230): None if the directory does not exist;
otherwise the incremental subdirectory paths sorted by sequence number
(`incr_dirs.sort(key=lambda x: x[0])`, a stable sort on the number).
os.listdir on an unreadable directory raises, and nothing here catches. -/
def find_incrementals (directory_path : String) (d : DirAccess) : Res (Option FindIncrResp) :=
  match d with
  | DirAccess.absent => Res.ok none
  | DirAccess.unreadable => Res.raised
  | DirAccess.readable entries =>
    Res.ok (some
      { base_backup := directory_path,
        incrementals :=
          (List.insertionSort (fun a b => a.1 ≤ b.1) (incrNumPairs entries)).map
            (fun pr => joinPath directory_path pr.2) })

/-- The response dictionary of get_latest_backup. -/
structure BackupState where
  last_backup_today : Bool
  last_backup_incr : Bool
  next_backup_loc : Option String
  base_backup_loc : Option String
deriving DecidableEq

/-- get_latest_backup (lines 287-335): inputs are the configured backup root,
the strftime('%Y-%m-%d') rendering of today, whether the root exists, and the
state of the directory root/today. When a backup for today exists, the next
location comes from find_next_incr_directory, and last_backup_incr is set by
`next_incremental.endswith('incr1')` (lines 326-329). -/
def get_latest_backup (root_backup_path today : String) (rootExists : Bool)
    (todayDir : DirAccess) : BackupState :=
  if rootExists then
    let todays_backup := joinPath root_backup_path today
    match todayDir with
    | DirAccess.absent =>
      { last_backup_today := false, last_backup_incr := false,
        next_backup_loc := some todays_backup, base_backup_loc := none }
    | d =>
      match find_next_incr_directory todays_backup d with
      | Res.ok (some next_incremental) =>
        { last_backup_today := true,
          last_backup_incr := !(pyEndsWith next_incremental incr1Str),
          next_backup_loc := some next_incremental,
          base_backup_loc := some todays_backup }
      | _ =>
        { last_backup_today := true, last_backup_incr := false,
          next_backup_loc := none, base_backup_loc := some todays_backup }
  else
    { last_backup_today := false, last_backup_incr := false,
      next_backup_loc := none, base_backup_loc := none }

/-- verify_backup_date (lines 155-175): strptime the argument with
"%Y-%m-%d"; on failure log and call sys.exit() with no argument, which
terminates the process with status 0. If the directory root/date exists
return True, else log and sys.exit(1). -/
def verify_backup_date (backup_date : String) (root_backup_path : String)
    (isdir : Bool) : Res Bool :=
  match parse_date_name backup_date with
  | none => Res.exited 0
  | some _ => if isdir then Res.ok true else Res.exited 1

/-- One xtrabackup --prepare invocation, with or without --apply-logs-only. -/
structure PrepStep where
  target_dir : String
  apply_logs_only : Bool
deriving DecidableEq

/-- len() of the find_incrementals response dictionary: it always has the
two keys base_backup and incrementals. -/
def pyLenDict (_ : FindIncrResp) : Nat := 2

/-- prepare_backup (lines 338-396). Line 362 reads
`if len(incrementals == 0:` — an unbalanced parenthesis, a SyntaxError —
modelled here with the minimal repair `len(incrementals) == 0`. That length
is the key count of the response dictionary, 2, never 0, so the base branch
is unreachable and the else branch runs an --apply-logs-only prepare on the
base. The loop at lines 390-396 only writes log lines (the TODO at line 378
marks the incremental prepare invocations as unwritten), so no further
xtrabackup step is emitted for any lineage. If the directory is missing,
find_incrementals returns None and the subscript on it raises. -/
def prepare_backup (backup_base : String) (d : DirAccess) : Res (List PrepStep) :=
  match find_incrementals backup_base d with
  | Res.ok (some incrementals) =>
    if pyLenDict incrementals = 0 then
      Res.ok [ { target_dir := backup_base, apply_logs_only := false } ]
    else
      Res.ok [ { target_dir := backup_base, apply_logs_only := true } ]
  | Res.ok none => Res.raised
  | Res.exited c => Res.exited c
  | Res.raised => Res.raised

/-- Observable actions of the main backup branch. -/
inductive MainAction where
  | logInfo (tag : String)
  | logError (tag : String)
  | backupRun (target : String)
deriving DecidableEq

/-- The static part of the error message logged at line 468. -/
def fullExistsMsg : String := "A full backup already exists for today"

/-- The message logged at line 464. -/
def performingFullMsg : String := "Performing full backup"

/-- The `args.backup` branch of main (lines 463-469): log, resolve state via
get_latest_backup, log an error if a backup for today already exists, and
then call perform_backup on state.next_backup_loc unconditionally. -/
def main_backup (root_backup_path today : String) (rootExists : Bool)
    (todayDir : DirAccess) : List MainAction :=
  let state := get_latest_backup root_backup_path today rootExists todayDir
  MainAction.logInfo performingFullMsg ::
    ((if state.last_backup_today then [ MainAction.logError fullExistsMsg ] else []) ++
      [ MainAction.backupRun (pyStr state.next_backup_loc) ])

/-- The `args.prepare` branch of main (lines 483-489): verify_backup_date,
then prepare_backup on root/date. -/
def main_prepare (dateArg root_backup_path : String) (isdir : Bool)
    (d : DirAccess) : Res (List PrepStep) :=
  match verify_backup_date dateArg root_backup_path isdir with
  | Res.ok _ => prepare_backup (joinPath root_backup_path dateArg) d
  | Res.exited c => Res.exited c
  | Res.raised => Res.raised

/-- Whether an outcome is fatal for the process: a nonzero exit or an
uncaught exception. Used to state what the specification calls a fatal
error. -/
def fatalOutcome {α : Type} : Res α → Bool
  | Res.ok _ => false
  | Res.exited c => decide (c ≠ 0)
  | Res.raised => true

theorem decChar_isDigit (n : Nat) : (decChar n).isDigit = true := by
  unfold decChar
  split_ifs <;> rfl

theorem decChar_toNat (n : Nat) (h : n < 10) : (decChar n).toNat - 48 = n := by
  unfold decChar
  split_ifs with h0 h1 h2 h3 h4 h5 h6 h7 h8 <;> simp_all <;> omega

theorem decChar_eq_one_iff (n : Nat) (h : n < 10) : decChar n = '1' ↔ n = 1 := by
  unfold decChar
  split_ifs with h0 h1 h2 h3 h4 h5 h6 h7 h8
  all_goals constructor
  all_goals intro hq
  all_goals first
    | omega
    | (exact absurd hq (by decide))
    | rfl

theorem natDigitsAux_congr (f : Nat) : ∀ g n : Nat, n < f → n < g →
    natDigitsAux f n = natDigitsAux g n := by
  induction f with
  | zero => intro g n hf _; omega
  | succ f ih =>
    intro g n hf hg
    cases g with
    | zero => omega
    | succ g =>
      simp only [natDigitsAux]
      by_cases h : n < 10
      · simp [h]
      · have hn : 0 < n := by omega
        have hdiv : n / 10 < n := Nat.div_lt_self hn (by omega)
        simp only [h, if_false]
        rw [ih g (n / 10) (by omega) (by omega)]

theorem natDigits_eq (n : Nat) :
    natDigits n = if n < 10 then [ decChar n ]
      else natDigits (n / 10) ++ [ decChar (n % 10) ] := by
  by_cases h : n < 10
  · simp [natDigits, natDigitsAux, h]
  · have hn : 0 < n := by omega
    have hdiv : n / 10 < n := Nat.div_lt_self hn (by omega)
    have step : natDigits n =
        if n < 10 then [ decChar n ]
        else natDigitsAux n (n / 10) ++ [ decChar (n % 10) ] := rfl
    rw [step, if_neg h, if_neg h]
    rw [natDigitsAux_congr n (n / 10 + 1) (n / 10) (by omega) (by omega)]
    rfl

theorem natDigits_ne_nil (n : Nat) : natDigits n ≠ [] := by
  rw [natDigits_eq]
  split <;> simp

theorem natDigits_digits (n : Nat) : ∀ c ∈ natDigits n, c.isDigit = true := by
  induction n using Nat.strong_induction_on with
  | _ n ih =>
    rw [natDigits_eq]
    split
    · intro c hc
      rw [List.mem_singleton] at hc
      subst hc
      exact decChar_isDigit n
    · intro c hc
      rw [List.mem_append] at hc
      rcases hc with h | h
      · have hn : 0 < n := by omega
        exact ih (n / 10) (Nat.div_lt_self hn (by omega)) c h
      · rw [List.mem_singleton] at h
        subst h
        exact decChar_isDigit _

theorem parseDigits_natDigits (n : Nat) : parseDigits (natDigits n) = n := by
  induction n using Nat.strong_induction_on with
  | _ n ih =>
    rw [natDigits_eq]
    split
    · next h =>
      simp only [parseDigits, List.foldl_cons, List.foldl_nil, Nat.zero_mul, Nat.zero_add]
      exact decChar_toNat n h
    · next h =>
      have hn : 0 < n := by omega
      have hdiv : n / 10 < n := Nat.div_lt_self hn (by omega)
      simp only [parseDigits, List.foldl_append, List.foldl_cons, List.foldl_nil]
      have ihd := ih (n / 10) hdiv
      simp only [parseDigits] at ihd
      rw [ihd, decChar_toNat (n % 10) (Nat.mod_lt n (by omega))]
      omega

theorem natDigits_len1 (n : Nat) (h : n < 10) : (natDigits n).length = 1 := by
  rw [natDigits_eq]
  simp [h]

theorem natDigits_len2 (n : Nat) (h1 : 10 ≤ n) (h2 : n < 100) :
    (natDigits n).length = 2 := by
  rw [natDigits_eq]
  rw [if_neg (by omega)]
  rw [List.length_append, natDigits_len1 (n / 10) (by omega)]
  rfl

theorem natDigits_len3 (n : Nat) (h1 : 100 ≤ n) (h2 : n < 1000) :
    (natDigits n).length = 3 := by
  rw [natDigits_eq]
  rw [if_neg (by omega)]
  rw [List.length_append, natDigits_len2 (n / 10) (by omega) (by omega)]
  rfl

theorem natDigits_len4 (n : Nat) (h1 : 1000 ≤ n) (h2 : n < 10000) :
    (natDigits n).length = 4 := by
  rw [natDigits_eq]
  rw [if_neg (by omega)]
  rw [List.length_append, natDigits_len3 (n / 10) (by omega) (by omega)]
  rfl

theorem natDigits_eq_one_char_iff (k : Nat) : natDigits k = [ '1' ] ↔ k = 1 := by
  constructor
  · intro h
    by_cases hk : k < 10
    · rw [natDigits_eq, if_pos hk] at h
      rw [List.cons.injEq] at h
      exact (decChar_eq_one_iff k hk).mp h.1
    · exfalso
      have hlen : (natDigits k).length ≥ 2 := by
        rw [natDigits_eq, if_neg hk, List.length_append]
        have := List.length_pos.mpr (natDigits_ne_nil (k / 10))
        simp only [List.length_singleton]
        omega
      rw [h] at hlen
      simp at hlen
  · intro h
    subst h
    decide

theorem data_append (s t : String) : (s ++ t).data = s.data ++ t.data := by
  cases s; cases t; rfl

theorem parseDigits_cons_zero (l : List Char) :
    parseDigits ('0' :: l) = parseDigits l := by
  simp [parseDigits]

theorem cons_zero_digits (l : List Char) (hl : ∀ c ∈ l, c.isDigit = true) :
    ∀ c ∈ '0' :: l, c.isDigit = true := by
  intro c hc
  rcases List.mem_cons.mp hc with h | h
  · subst h; rfl
  · exact hl c h

theorem pad2_digits (n : Nat) : ∀ c ∈ pad2 n, c.isDigit = true := by
  unfold pad2
  split
  · exact cons_zero_digits _ (natDigits_digits n)
  · exact natDigits_digits n

theorem pad4_digits (n : Nat) : ∀ c ∈ pad4 n, c.isDigit = true := by
  unfold pad4
  split_ifs
  · exact cons_zero_digits _ (cons_zero_digits _ (cons_zero_digits _ (natDigits_digits n)))
  · exact cons_zero_digits _ (cons_zero_digits _ (natDigits_digits n))
  · exact cons_zero_digits _ (natDigits_digits n)
  · exact natDigits_digits n

theorem pad2_length (n : Nat) (h : n < 100) : (pad2 n).length = 2 := by
  unfold pad2
  split
  · next hn => rw [List.length_cons, natDigits_len1 n hn]
  · next hn => exact natDigits_len2 n (by omega) h

theorem pad4_length (n : Nat) (h : n < 10000) : (pad4 n).length = 4 := by
  unfold pad4
  split_ifs with h1 h2 h3
  · simp [natDigits_len1 n h1]
  · simp [natDigits_len2 n (by omega) h2]
  · simp [natDigits_len3 n (by omega) h3]
  · exact natDigits_len4 n (by omega) h

theorem parseDigits_pad2 (n : Nat) (h : n < 100) : parseDigits (pad2 n) = n := by
  unfold pad2
  split
  · rw [parseDigits_cons_zero, parseDigits_natDigits]
  · rw [parseDigits_natDigits]

theorem parseDigits_pad4 (n : Nat) (h : n < 10000) : parseDigits (pad4 n) = n := by
  unfold pad4
  split_ifs
  all_goals
    repeat rw [parseDigits_cons_zero]
  all_goals rw [parseDigits_natDigits]

theorem takeDigits_until_dash (l r : List Char) (hl : ∀ c ∈ l, c.isDigit = true) :
    takeDigits (l ++ '-' :: r) = (l, '-' :: r) := by
  induction l with
  | nil => simp [takeDigits]
  | cons c cs ih =>
    have hc : c.isDigit = true := hl c (List.mem_cons_self c cs)
    have ih2 := ih (fun x hx => hl x (List.mem_cons_of_mem c hx))
    simp [takeDigits, hc, ih2]

theorem takeDigits_all (l : List Char) (hl : ∀ c ∈ l, c.isDigit = true) :
    takeDigits l = (l, []) := by
  induction l with
  | nil => rfl
  | cons c cs ih =>
    have hc : c.isDigit = true := hl c (List.mem_cons_self c cs)
    have ih2 := ih (fun x hx => hl x (List.mem_cons_of_mem c hx))
    simp [takeDigits, hc, ih2]

theorem parse_format_date (d : Date) (h : validDate d) :
    parse_date_name (format_date_name d) = some d := by
  obtain ⟨h1, h2, h3, h4, h5, h6⟩ := h
  have hm100 : d.month < 100 := by omega
  have hd100 : d.day < 100 := by
    have hb : daysInMonth d.year d.month ≤ 31 := by
      unfold daysInMonth
      split_ifs <;> omega
    omega
  have hy10000 : d.year < 10000 := by omega
  have e1 : takeDigits (format_date_name d).data
      = (pad4 d.year, '-' :: (pad2 d.month ++ ('-' :: pad2 d.day))) := by
    have hdata : (format_date_name d).data
        = pad4 d.year ++ ('-' :: (pad2 d.month ++ ('-' :: pad2 d.day))) := rfl
    rw [hdata]
    exact takeDigits_until_dash _ _ (pad4_digits d.year)
  have e2 : takeDigits (pad2 d.month ++ ('-' :: pad2 d.day))
      = (pad2 d.month, '-' :: pad2 d.day) := takeDigits_until_dash _ _ (pad2_digits d.month)
  have e3 : takeDigits (pad2 d.day) = (pad2 d.day, []) := takeDigits_all _ (pad2_digits d.day)
  simp only [parse_date_name, e1, e2, e3]
  rw [if_pos ⟨pad4_length d.year hy10000, by rw [pad2_length d.month hm100]; omega,
    by rw [pad2_length d.month hm100], by rw [pad2_length d.day hd100]; omega,
    by rw [pad2_length d.day hd100]⟩]
  rw [parseDigits_pad4 d.year hy10000, parseDigits_pad2 d.month hm100,
    parseDigits_pad2 d.day hd100]
  rw [if_pos ⟨h1, h3, h4, h5, h6⟩]

theorem parse_format_incr (n : Nat) :
    parse_incr_name (format_incr_name n) = some n := by
  unfold format_incr_name parse_incr_name
  rw [data_append]
  have hs : incrStr.data = [ 'i', 'n', 'c', 'r' ] := rfl
  have hn : (natToStr n).data = natDigits n := rfl
  rw [hs, hn]
  simp only [List.cons_append, List.nil_append]
  have hne : (natDigits n).isEmpty = false := by
    cases hd : natDigits n with
    | nil => exact absurd hd (natDigits_ne_nil n)
    | cons a l => rfl
  rw [hne]
  simp only [Bool.false_eq_true, if_false]
  have hall : (natDigits n).all Char.isDigit = true := by
    rw [List.all_eq_true]
    exact natDigits_digits n
  rw [hall]
  simp [parseDigits_natDigits]

theorem le_foldl_max (l : List Nat) (a : Nat) : a ≤ l.foldl Nat.max a := by
  induction l generalizing a with
  | nil => exact Nat.le_refl a
  | cons x xs ih =>
    exact Nat.le_trans (Nat.le_max_left a x) (ih (Nat.max a x))

theorem mem_le_foldl_max (l : List Nat) (a : Nat) : ∀ b ∈ l, b ≤ l.foldl Nat.max a := by
  induction l generalizing a with
  | nil => intro b hb; exact absurd hb (List.not_mem_nil b)
  | cons x xs ih =>
    intro b hb
    rcases List.mem_cons.mp hb with h | h
    · subst h
      exact Nat.le_trans (Nat.le_max_right a b) (le_foldl_max xs (Nat.max a b))
    · exact ih (Nat.max a x) b h

theorem foldl_max_mem (l : List Nat) (a : Nat) :
    l.foldl Nat.max a = a ∨ l.foldl Nat.max a ∈ l := by
  induction l generalizing a with
  | nil => exact Or.inl rfl
  | cons x xs ih =>
    rcases ih (Nat.max a x) with h | h
    · have hm : Nat.max a x = a ∨ Nat.max a x = x := by
        rcases Nat.le_total a x with hle | hle
        · exact Or.inr (Nat.max_eq_right hle)
        · exact Or.inl (Nat.max_eq_left hle)
      rcases hm with hm | hm
      · exact Or.inl (by rw [List.foldl_cons, h, hm])
      · refine Or.inr ?_
        rw [List.foldl_cons, h, hm]
        exact List.mem_cons_self x xs
    · exact Or.inr (List.mem_cons_of_mem x h)

theorem one_le_foldl_max (l : List Nat) (a : Nat) :
    1 ≤ l.foldl Nat.max a ↔ 1 ≤ a ∨ ∃ n ∈ l, 1 ≤ n := by
  constructor
  · intro h
    rcases foldl_max_mem l a with hm | hm
    · exact Or.inl (hm ▸ h)
    · exact Or.inr ⟨l.foldl Nat.max a, hm, h⟩
  · intro h
    rcases h with h | ⟨n, hn, h1⟩
    · exact Nat.le_trans h (le_foldl_max l a)
    · exact Nat.le_trans h1 (mem_le_foldl_max l a n hn)

theorem pyMaxSnd_bound (pairs : List (String × Nat)) :
    ∀ pr ∈ pairs, pr.2 ≤ pyMaxSnd pairs := by
  intro pr hpr
  exact mem_le_foldl_max _ 0 pr.2 (List.mem_map_of_mem (fun p => p.2) hpr)

theorem pyMaxSnd_mem (pairs : List (String × Nat)) (h : pairs ≠ []) :
    pyMaxSnd pairs ∈ pairs.map (fun p => p.2) := by
  unfold pyMaxSnd
  rcases foldl_max_mem (pairs.map (fun p => p.2)) 0 with hm | hm
  · cases pairs with
    | nil => exact absurd rfl h
    | cons p ps =>
      have hple : p.2 ≤ ((p :: ps).map (fun p => p.2)).foldl Nat.max 0 :=
        mem_le_foldl_max _ 0 p.2 (List.mem_map_of_mem _ (List.mem_cons_self p ps))
      rw [hm] at hple ⊢
      have : p.2 = 0 := Nat.le_zero.mp hple
      rw [← this]
      exact List.mem_map_of_mem _ (List.mem_cons_self p ps)
  · exact hm

theorem one_le_pyMaxSnd_iff (pairs : List (String × Nat)) :
    1 ≤ pyMaxSnd pairs ↔ ∃ pr ∈ pairs, 1 ≤ pr.2 := by
  unfold pyMaxSnd
  rw [one_le_foldl_max]
  constructor
  · intro h
    rcases h with h | ⟨n, hn, h1⟩
    · omega
    · rcases List.mem_map.mp hn with ⟨pr, hpr, he⟩
      exact ⟨pr, hpr, he ▸ h1⟩
  · intro ⟨pr, hpr, h1⟩
    exact Or.inr ⟨pr.2, List.mem_map_of_mem _ hpr, h1⟩

theorem incr1Str_eq : incr1Str = incrStr ++ natToStr 1 := by decide

theorem find_next_readable (bp : String) (entries : List (String × Bool))
    (hbp : bp.data ≠ []) :
    find_next_incr_directory bp (DirAccess.readable entries) =
      Res.ok (some (joinPath bp (incrStr ++ natToStr (pyMaxSnd (incrDirPairs entries) + 1)))) := by
  have hstep : find_next_incr_directory bp (DirAccess.readable entries) =
      if bp.data = [] then Res.ok none else
        match incrDirPairs entries with
        | [] => Res.ok (some (joinPath bp incr1Str))
        | p :: ps => Res.ok (some (joinPath bp (incrStr ++ natToStr (pyMaxSnd (p :: ps) + 1)))) := rfl
  rw [hstep, if_neg hbp]
  cases hp : incrDirPairs entries with
  | nil =>
    rw [show pyMaxSnd ([] : List (String × Nat)) + 1 = 1 from rfl, ← incr1Str_eq]
  | cons p ps => rfl

theorem mem_incrDirPairs (entries : List (String × Bool)) (pr : String × Nat)
    (h : pr ∈ incrDirPairs entries) : parse_incr_name pr.1 = some pr.2 := by
  unfold incrDirPairs at h
  rcases List.mem_filterMap.mp h with ⟨nm, _, hm⟩
  rcases Option.map_eq_some'.mp hm with ⟨k, hk, he⟩
  rw [← he]
  exact hk

theorem joinPath_inj (bp x y : String) (h : joinPath bp x = joinPath bp y) : x = y := by
  unfold joinPath at h
  have hd := congrArg String.data h
  rw [data_append, data_append, data_append, data_append] at hd
  have hxy : x.data = y.data := List.append_cancel_left hd
  exact String.ext hxy

theorem joinPath_incr_data (bp : String) (k : Nat) :
    (joinPath bp (incrStr ++ natToStr k)).data
      = (bp.data ++ [ '/' ]) ++ ('i' :: 'n' :: 'c' :: 'r' :: natDigits k) := by
  unfold joinPath
  rw [data_append, data_append, data_append]
  have h1 : slashStr.data = [ '/' ] := rfl
  have h2 : incrStr.data = [ 'i', 'n', 'c', 'r' ] := rfl
  have h3 : (natToStr k).data = natDigits k := rfl
  rw [h1, h2, h3]
  simp

theorem pyEndsWith_join_incr (bp : String) (k : Nat) :
    pyEndsWith (joinPath bp (incrStr ++ natToStr k)) incr1Str = true ↔ k = 1 := by
  have hD1 : 1 ≤ (natDigits k).length := List.length_pos.mpr (natDigits_ne_nil k)
  have hi1 : incr1Str.data = [ 'i', 'n', 'c', 'r', '1' ] := rfl
  rw [pyEndsWith, decide_eq_true_eq, joinPath_incr_data, hi1]
  rw [show ([ 'i', 'n', 'c', 'r', '1' ] : List Char).length = 5 from rfl]
  have hlsub : ((bp.data ++ [ '/' ]) ++ ('i' :: 'n' :: 'c' :: 'r' :: natDigits k)).length - 5
      = (bp.data ++ [ '/' ]).length + ((natDigits k).length - 1) := by
    simp [List.length_append]
    omega
  rw [hlsub, List.drop_append_eq_append_drop,
    List.drop_eq_nil_of_le (by omega), Nat.add_sub_cancel_left, List.nil_append]
  by_cases hk : k < 10
  · have hD : natDigits k = [ decChar k ] := by rw [natDigits_eq, if_pos hk]
    rw [hD]
    simp only [List.length_singleton, Nat.sub_self, List.drop_zero]
    constructor
    · intro heq
      have hc : decChar k = '1' := by
        have := List.cons.injEq _ _ _ _ ▸ heq
        simp at heq
        exact heq
      exact (decChar_eq_one_iff k hk).mp hc
    · intro hk1
      subst hk1
      decide
  · have hD : natDigits k = natDigits (k / 10) ++ [ decChar (k % 10) ] := by
      rw [natDigits_eq, if_neg hk]
    constructor
    · intro heq
      exfalso
      have hfull := List.take_append_drop
        ((natDigits k).length - 1) ('i' :: 'n' :: 'c' :: 'r' :: natDigits k)
      rw [heq] at hfull
      -- hfull : T ++ [i, n, c, r, 1] = i :: n :: c :: r :: natDigits k
      set T := List.take ((natDigits k).length - 1)
        ('i' :: 'n' :: 'c' :: 'r' :: natDigits k) with hT
      set A := natDigits (k / 10) with hA
      have hAne : A ≠ [] := natDigits_ne_nil (k / 10)
      rw [hD] at hfull
      have hstep1 : (T ++ [ 'i', 'n', 'c', 'r' ]) ++ [ '1' ]
          = ('i' :: 'n' :: 'c' :: 'r' :: A) ++ [ decChar (k % 10) ] := by
        simpa using hfull
      have hinj1 := List.append_inj' hstep1 rfl
      have hstep2 : (T ++ [ 'i', 'n', 'c' ]) ++ [ 'r' ]
          = ('i' :: 'n' :: 'c' :: 'r' :: A.dropLast) ++ [ A.getLast hAne ] := by
        have hsplit : A.dropLast ++ [ A.getLast hAne ] = A :=
          List.dropLast_append_getLast hAne
        have h1 := hinj1.1
        calc (T ++ [ 'i', 'n', 'c' ]) ++ [ 'r' ]
            = T ++ [ 'i', 'n', 'c', 'r' ] := by simp
          _ = 'i' :: 'n' :: 'c' :: 'r' :: A := h1
          _ = 'i' :: 'n' :: 'c' :: 'r' :: (A.dropLast ++ [ A.getLast hAne ]) := by
              rw [hsplit]
          _ = ('i' :: 'n' :: 'c' :: 'r' :: A.dropLast) ++ [ A.getLast hAne ] := by simp
      have hinj2 := List.append_inj' hstep2 rfl
      have hr : 'r' = A.getLast hAne := by
        have := hinj2.2
        simpa using this
      have hdig : (A.getLast hAne).isDigit = true :=
        natDigits_digits (k / 10) (A.getLast hAne) (List.getLast_mem hAne)
      rw [← hr] at hdig
      exact absurd hdig (by decide)
    · intro h1
      omega

theorem joinPath_data_ne_nil (a b : String) : (joinPath a b).data ≠ [] := by
  unfold joinPath
  rw [data_append, data_append]
  have h1 : slashStr.data = [ '/' ] := rfl
  rw [h1]
  simp

theorem get_latest_backup_readable (root today : String) (entries : List (String × Bool)) :
    get_latest_backup root today true (DirAccess.readable entries) =
      { last_backup_today := true,
        last_backup_incr :=
          !(pyEndsWith (joinPath (joinPath root today)
            (incrStr ++ natToStr (pyMaxSnd (incrDirPairs entries) + 1))) incr1Str),
        next_backup_loc := some (joinPath (joinPath root today)
          (incrStr ++ natToStr (pyMaxSnd (incrDirPairs entries) + 1))),
        base_backup_loc := some (joinPath root today) } := by
  have hne : (joinPath root today).data ≠ [] := joinPath_data_ne_nil root today
  have hfn := find_next_readable (joinPath root today) entries hne
  have hstep : get_latest_backup root today true (DirAccess.readable entries) =
      match find_next_incr_directory (joinPath root today) (DirAccess.readable entries) with
      | Res.ok (some next_incremental) =>
        { last_backup_today := true,
          last_backup_incr := !(pyEndsWith next_incremental incr1Str),
          next_backup_loc := some next_incremental,
          base_backup_loc := some (joinPath root today) }
      | _ =>
        { last_backup_today := true, last_backup_incr := false,
          next_backup_loc := none, base_backup_loc := some (joinPath root today) } := rfl
  rw [hstep, hfn]

/-- Sequence numbers of the incremental subdirectories the scan accepts. -/
def incrSeqs (entries : List (String × Bool)) : List Nat :=
  (incrDirPairs entries).map (fun p => p.2)

def bRootStr : String := "/backups"

def todayStr : String := "2025-07-01"

def sampleBaseStr : String := "/backups/2025-07-01"

def incr2Str : String := "incr2"

def incr3Str : String := "incr3"

def incr10Str : String := "incr10"

def junkStr : String := "junk"

def textFileStr : String := "notes.txt"

def badDateStr : String := "bad-date"

def demoEntries : List (String × Bool) :=
  [ (incr2Str, true), (incr10Str, true), (incr1Str, true),
    (junkStr, true), (textFileStr, false) ]

instance : IsTotal (Nat × String) (fun a b => a.1 ≤ b.1) :=
  ⟨fun a b => Nat.le_total a.1 b.1⟩

instance : IsTrans (Nat × String) (fun a b => a.1 ≤ b.1) :=
  ⟨fun a b c h1 h2 => Nat.le_trans h1 h2⟩

/-- C3: for every existing (listable) base directory, find_next_incr_directory
returns the path for one more than the highest existing incremental sequence
number, with 0 standing in for the highest number when no incremental exists:
the returned sequence number k satisfies 1 ≤ k, exceeds every scanned
sequence number, and k - 1 is either an existing sequence number or there are
none and k = 1. In particular with incr1 and incr2 present the result is the
incr3 path, and with no incrementals it is the incr1 path. -/
theorem c3_next_incremental_location :
    (∀ (bp : String) (entries : List (String × Bool)), bp.data ≠ [] →
      ∃ k, find_next_incr_directory bp (DirAccess.readable entries) =
          Res.ok (some (joinPath bp (incrStr ++ natToStr k))) ∧
        1 ≤ k ∧ (∀ n ∈ incrSeqs entries, n < k) ∧
        ((incrSeqs entries = [] ∧ k = 1) ∨ (k - 1) ∈ incrSeqs entries)) ∧
    find_next_incr_directory sampleBaseStr
        (DirAccess.readable [ (incr1Str, true), (incr2Str, true) ]) =
      Res.ok (some (joinPath sampleBaseStr incr3Str)) ∧
    find_next_incr_directory sampleBaseStr (DirAccess.readable []) =
      Res.ok (some (joinPath sampleBaseStr incr1Str)) := by
  refine ⟨?_, by decide, by decide⟩
  intro bp entries hbp
  refine ⟨pyMaxSnd (incrDirPairs entries) + 1, find_next_readable bp entries hbp, ?_, ?_, ?_⟩
  · omega
  · intro n hn
    rcases List.mem_map.mp hn with ⟨pr, hpr, he⟩
    have := pyMaxSnd_bound (incrDirPairs entries) pr hpr
    omega
  · by_cases hp : incrDirPairs entries = []
    · refine Or.inl ⟨?_, ?_⟩
      · unfold incrSeqs
        rw [hp]
        rfl
      · rw [hp]
        rfl
    · refine Or.inr ?_
      have hmem := pyMaxSnd_mem (incrDirPairs entries) hp
      unfold incrSeqs
      rw [Nat.add_sub_cancel]
      exact hmem

/-- C3 witness: the characterization applied to the concrete directory
holding incr1 and incr2. -/
theorem c3_next_incremental_location_witness :
    ∃ k, find_next_incr_directory sampleBaseStr
        (DirAccess.readable [ (incr1Str, true), (incr2Str, true) ]) =
        Res.ok (some (joinPath sampleBaseStr (incrStr ++ natToStr k))) ∧
      1 ≤ k ∧ (∀ n ∈ incrSeqs [ (incr1Str, true), (incr2Str, true) ], n < k) ∧
      ((incrSeqs [ (incr1Str, true), (incr2Str, true) ] = [] ∧ k = 1) ∨
        (k - 1) ∈ incrSeqs [ (incr1Str, true), (incr2Str, true) ]) :=
  c3_next_incremental_location.1 sampleBaseStr
    [ (incr1Str, true), (incr2Str, true) ] (by decide)

/-- C9: for every readable backup directory, the target returned by
find_next_incr_directory carries a sequence number strictly greater than
that of every matching incremental subdirectory present, and therefore
never equals the path of an existing incremental directory: it is a fresh
write target. -/
theorem c9_next_target_fresh (bp : String) (entries : List (String × Bool))
    (hbp : bp.data ≠ []) :
    ∃ k, find_next_incr_directory bp (DirAccess.readable entries) =
        Res.ok (some (joinPath bp (incrStr ++ natToStr k))) ∧
      parse_incr_name (incrStr ++ natToStr k) = some k ∧
      ∀ pr ∈ incrDirPairs entries,
        pr.2 < k ∧ joinPath bp (incrStr ++ natToStr k) ≠ joinPath bp pr.1 := by
  refine ⟨pyMaxSnd (incrDirPairs entries) + 1, find_next_readable bp entries hbp,
    parse_format_incr _, ?_⟩
  intro pr hpr
  have hb := pyMaxSnd_bound (incrDirPairs entries) pr hpr
  refine ⟨by omega, ?_⟩
  intro heq
  have hname := joinPath_inj bp _ _ heq
  have hp1 : parse_incr_name pr.1 = some pr.2 := mem_incrDirPairs entries pr hpr
  have hp2 : parse_incr_name (incrStr ++ natToStr (pyMaxSnd (incrDirPairs entries) + 1))
      = some (pyMaxSnd (incrDirPairs entries) + 1) := parse_format_incr _
  rw [hname, hp1] at hp2
  have : pr.2 = pyMaxSnd (incrDirPairs entries) + 1 := Option.some.inj hp2
  omega

/-- C9 witness: the fresh-target property applied to a directory holding
incr2. -/
theorem c9_next_target_fresh_witness :
    ∃ k, find_next_incr_directory sampleBaseStr
        (DirAccess.readable [ (incr2Str, true) ]) =
        Res.ok (some (joinPath sampleBaseStr (incrStr ++ natToStr k))) ∧
      parse_incr_name (incrStr ++ natToStr k) = some k ∧
      ∀ pr ∈ incrDirPairs [ (incr2Str, true) ],
        pr.2 < k ∧ joinPath sampleBaseStr (incrStr ++ natToStr k) ≠ joinPath sampleBaseStr pr.1 :=
  c9_next_target_fresh sampleBaseStr [ (incr2Str, true) ] (by decide)

/-- C7: whenever a backup for today exists and its directory is listable,
the resolver reports last_backup_today and sets the continuation flag
last_backup_incr exactly when an incremental snapshot (a directory matching
the incremental pattern with sequence number at least 1, per the data model)
already exists — for every possible set of entries, including multi-digit
sequence numbers such as incr10, thanks to the exact endswith('incr1')
comparison on the computed next path. -/
theorem c7_first_incremental_flag (root today : String) (entries : List (String × Bool)) :
    (get_latest_backup root today true (DirAccess.readable entries)).last_backup_today = true ∧
    ((get_latest_backup root today true (DirAccess.readable entries)).last_backup_incr = true ↔
      ∃ pr ∈ incrDirPairs entries, 1 ≤ pr.2) := by
  rw [get_latest_backup_readable]
  refine ⟨rfl, ?_⟩
  have hend := pyEndsWith_join_incr (joinPath root today) (pyMaxSnd (incrDirPairs entries) + 1)
  have h1 : ∀ b : Bool, ((!b) = true ↔ ¬(b = true)) := by decide
  rw [h1, hend, ← one_le_pyMaxSnd_iff]
  omega

/-- C7 witness: with only incr10 present the flag reports a continuation;
with no incrementals it reports the first incremental. -/
theorem c7_first_incremental_flag_witness :
    ((get_latest_backup bRootStr todayStr true
        (DirAccess.readable [ (incr10Str, true) ])).last_backup_today = true ∧
      ((get_latest_backup bRootStr todayStr true
          (DirAccess.readable [ (incr10Str, true) ])).last_backup_incr = true ↔
        ∃ pr ∈ incrDirPairs [ (incr10Str, true) ], 1 ≤ pr.2)) :=
  c7_first_incremental_flag bRootStr todayStr [ (incr10Str, true) ]

/-- C6: for every existing base directory, the scan returns its matching
incremental subdirectories sorted numerically ascending by sequence number
(as a permutation of exactly the matching (number, name) pairs, so entries
that are not valid incremental names are ignored rather than errors), and on
the concrete listing incr2, incr10, incr1 plus foreign entries the result
order is incr1, incr2, incr10. -/
theorem c6_incrementals_sorted_numeric :
    (∀ (path : String) (entries : List (String × Bool)),
      ∃ l : List (Nat × String),
        find_incrementals path (DirAccess.readable entries) =
          Res.ok (some
            { base_backup := path,
              incrementals := l.map (fun pr => joinPath path pr.2) }) ∧
        List.Pairwise (fun a b => a.1 ≤ b.1) l ∧
        l.Perm (incrNumPairs entries)) ∧
    find_incrementals bRootStr (DirAccess.readable demoEntries) =
      Res.ok (some
        { base_backup := bRootStr,
          incrementals := [ joinPath bRootStr incr1Str, joinPath bRootStr incr2Str,
            joinPath bRootStr incr10Str ] }) := by
  constructor
  · intro path entries
    refine ⟨List.insertionSort (fun a b => a.1 ≤ b.1) (incrNumPairs entries), rfl, ?_, ?_⟩
    · exact List.sorted_insertionSort _ _
    · exact List.perm_insertionSort _ _
  · decide

/-- C6 witness: the sortedness and permutation statement applied to the
concrete demo listing. -/
theorem c6_incrementals_sorted_numeric_witness :
    ∃ l : List (Nat × String),
      find_incrementals bRootStr (DirAccess.readable demoEntries) =
        Res.ok (some
          { base_backup := bRootStr,
            incrementals := l.map (fun pr => joinPath bRootStr pr.2) }) ∧
      List.Pairwise (fun a b => a.1 ≤ b.1) l ∧
      l.Perm (incrNumPairs demoEntries) :=
  c6_incrementals_sorted_numeric.1 bRootStr demoEntries

/-- C8: formatting and parsing of backup names are mutually inverse on valid
inputs: parsing the formatted directory name of any datetime-valid calendar
date yields that date back, and parsing the formatted incremental name of any
sequence number n with n ≥ 1 yields n back. -/
theorem c8_codec_round_trip :
    (∀ d : Date, validDate d → parse_date_name (format_date_name d) = some d) ∧
    (∀ n : Nat, 1 ≤ n → parse_incr_name (format_incr_name n) = some n) :=
  ⟨fun d h => parse_format_date d h, fun n _ => parse_format_incr n⟩

/-- C8 witness: the round trips at the concrete date 2025-07-01 and the
concrete sequence number 12. -/
theorem c8_codec_round_trip_witness :
    parse_date_name (format_date_name ⟨2025, 7, 1⟩) = some ⟨2025, 7, 1⟩ ∧
    parse_incr_name (format_incr_name 12) = some 12 :=
  ⟨c8_codec_round_trip.1 ⟨2025, 7, 1⟩ (by decide),
    c8_codec_round_trip.2 12 (by decide)⟩

/-- C10: verify_backup_date never hands a failure value back to its caller:
for every argument string and directory state it either returns True — and
then the argument parses under the %Y-%m-%d format and the backup directory
for it exists — or it terminates the process via sys.exit. -/
theorem c10_verify_backup_date_no_failure_return (backup_date root : String)
    (isdir : Bool) :
    (verify_backup_date backup_date root isdir = Res.ok true ∧
      (parse_date_name backup_date).isSome = true ∧ isdir = true) ∨
    (∃ c, verify_backup_date backup_date root isdir = Res.exited c) := by
  unfold verify_backup_date
  cases hp : parse_date_name backup_date with
  | none => exact Or.inr ⟨0, rfl⟩
  | some d =>
    cases isdir with
    | true => exact Or.inl ⟨rfl, rfl, rfl⟩
    | false => exact Or.inr ⟨1, rfl⟩

/-- C10 witness: the dichotomy applied to the concrete date 2025-07-01 with
the directory present. -/
theorem c10_verify_backup_date_no_failure_return_witness :
    (verify_backup_date todayStr bRootStr true = Res.ok true ∧
      (parse_date_name todayStr).isSome = true ∧ (true : Bool) = true) ∨
    (∃ c, verify_backup_date todayStr bRootStr true = Res.exited c) :=
  c10_verify_backup_date_no_failure_return todayStr bRootStr true

/-- C1 (code bug): with a base backup for today already present and holding
no incrementals, the backup branch of main logs the policy-conflict error
but then still calls perform_backup — on the next incremental path — because
the error branch at line 468 does not return: the operation is not refused
and a backup is performed. -/
theorem c1_full_backup_request_not_refused :
    main_backup bRootStr todayStr true (DirAccess.readable []) =
      [ MainAction.logInfo performingFullMsg, MainAction.logError fullExistsMsg,
        MainAction.backupRun (joinPath (joinPath bRootStr todayStr) incr1Str) ] := by
  decide

/-- C2 (code bug): on a lineage with two incrementals, prepare_backup emits
exactly one xtrabackup prepare step — apply-logs-only on the base — instead
of the documented three steps ending in a final prepare on incr2: the
incremental prepare loop only logs (TODO at line 378), and line 362 is a
SyntaxError whose minimal repair compares the constant dictionary length 2
with 0. -/
theorem c2_prepare_emits_one_step :
    prepare_backup sampleBaseStr
        (DirAccess.readable [ (incr1Str, true), (incr2Str, true) ]) =
      Res.ok [ { target_dir := sampleBaseStr, apply_logs_only := true } ] := by
  decide

/-- C5 (code bug): the malformed-date fatal path exits with status zero:
verify_backup_date calls sys.exit() with no argument, so the prepare branch
of main terminates with exit code 0 on the malformed date, contradicting the
requirement that every fatal path exits non-zero. -/
theorem c5_malformed_date_exit_status_zero :
    main_prepare badDateStr bRootStr true (DirAccess.readable []) = Res.exited 0 := by
  decide

/-- C4 counterexample: an unreadable directory does not produce a fatal
outcome: find_next_incr_directory returns None exactly as for a nonexistent
path, the readable empty directory instead yields the incr1 path, and
get_latest_backup carries on normally with the next location unset. -/
theorem c4_unreadable_scan_counterexample :
    fatalOutcome (find_next_incr_directory sampleBaseStr DirAccess.unreadable) = false ∧
    find_next_incr_directory sampleBaseStr DirAccess.unreadable =
      find_next_incr_directory sampleBaseStr DirAccess.absent ∧
    find_next_incr_directory sampleBaseStr (DirAccess.readable []) =
      Res.ok (some (joinPath sampleBaseStr incr1Str)) ∧
    get_latest_backup bRootStr todayStr true DirAccess.unreadable =
      { last_backup_today := true, last_backup_incr := false,
        next_backup_loc := none, base_backup_loc := some (joinPath bRootStr todayStr) } := by
  decide

/-- C4 amended: on an unreadable directory find_next_incr_directory catches
the PermissionError and returns None — a normal, non-fatal outcome, the same
value as for a nonexistent path — while every readable directory yields some
next path, so the error return is distinguishable by value from the normal
zero case but the operation is not fatal and the caller proceeds. -/
theorem c4_unreadable_scan_amended (bp : String) (entries : List (String × Bool)) :
    find_next_incr_directory bp DirAccess.unreadable = Res.ok none ∧
    fatalOutcome (find_next_incr_directory bp DirAccess.unreadable) = false ∧
    (bp.data ≠ [] →
      ∃ p, find_next_incr_directory bp (DirAccess.readable entries) = Res.ok (some p)) := by
  refine ⟨?_, ?_, ?_⟩
  · unfold find_next_incr_directory
    split <;> rfl
  · unfold find_next_incr_directory
    split <;> rfl
  · intro h
    exact ⟨_, find_next_readable bp entries h⟩

/-- C4 amended witness: the amended statement applied to the concrete base
directory with an empty listing. -/
theorem c4_unreadable_scan_amended_witness :
    find_next_incr_directory sampleBaseStr DirAccess.unreadable = Res.ok none ∧
    ∃ p, find_next_incr_directory sampleBaseStr (DirAccess.readable []) =
      Res.ok (some p) :=
  ⟨(c4_unreadable_scan_amended sampleBaseStr []).1,
    (c4_unreadable_scan_amended sampleBaseStr []).2.2 (by decide)⟩
